import Mathlib

/-!
Shallow embedding of the `texttui` repository (kdp1965/texttui) for checking
its natural-language specification.

Conventions of the embedding:
* Python `int` is `ℤ`, Python `float` is modelled exactly by `ℚ` (every input
  reaching the arithmetic checked here is a small integer or a ratio of such,
  and the only float operation performed is division followed by comparisons,
  which `ℚ` models exactly).
* Python `int(q)` (truncation toward zero) is `pytrunc`.
* Python list indexing (with negative-index wraparound) is `pyGet`.
* Stateful methods become pure functions from a state structure to the new
  state together with the list of emitted messages / performed writes;
  methods that can raise return `Option`/a flag recording the exception.
-/

/-- Python `int()` applied to an exact rational: truncation toward zero. -/
def pytrunc (q : ℚ) : ℤ := if 0 ≤ q then ⌊q⌋ else ⌈q⌉

/-- Python list indexing `l[i]` with negative-index wraparound; `none` models
an `IndexError`. -/
def pyGet {α : Type} (l : List α) (i : ℤ) : Option α :=
  if 0 ≤ i then l.get? i.toNat
  else if 0 ≤ i + l.length then l.get? (i + l.length).toNat else none

/-- `pre` is a prefix of `l` (character-list version of Python `str.startswith`). -/
def charsStartWith : List Char → List Char → Bool
  | [], _ => true
  | _ :: _, [] => false
  | a :: as, b :: bs => a == b && charsStartWith as bs

/-- Python's substring test `needle in hay` on character lists. -/
def charsContain (needle : List Char) : List Char → Bool
  | [] => needle.isEmpty
  | c :: rest => charsStartWith needle (c :: rest) || charsContain needle rest

/-! ## `src/tui/widgets/checkbutton.py` -/

namespace Texttui

/-- Messages emitted by widget event handlers (`await self.emit(...)`). -/
inductive Msg : Type
  | buttonPressed : Msg
  | rowHeightUpdate (row : ℤ) (new_height : ℤ) : Msg
  deriving DecidableEq, Repr

/-- The state of a `Checkbutton` relevant to its click behaviour
(`checked : Reactive[bool]`). -/
structure Checkbutton where
  checked : Bool
  deriving DecidableEq, Repr

/-- `Checkbutton.on_click`: negates `checked`, then emits one `ButtonPressed`. -/
def Checkbutton.on_click (c : Checkbutton) : Checkbutton × List Msg :=
  ({ c with checked := !c.checked }, [Msg.buttonPressed])

/-! ## `src/tui/widgets/radiobutton.py` -/

/-- A `RadioGroup`'s buttons: the `self.buttons` dict as an association list of
(key, `selected` flag) in iteration order.  Python dict keys are unique, which
theorems state as `Nodup` of the key list. -/
abbrev RGroup : Type := List (String × Bool)

/-- `RadioGroup.select(button)`: the button whose key equals `button` ends up
selected, every other button ends up deselected (the source skips writes that
would not change the flag, which does not change the resulting state). -/
def RGroup.select (g : RGroup) (button : String) : RGroup :=
  (g : List (String × Bool)).map (fun b => (b.1, b.1 == button))

/-- `Radiobutton.on_click` effect on the group state, for a button that belongs
to the group under key `name`: sets its own `selected = True`, then calls
`self.radiogroup.select(self.name)`.  Since `select` overwrites every button's
flag, the group state after the click is exactly `RGroup.select g name`. -/
def RGroup.click (g : RGroup) (name : String) : RGroup :=
  RGroup.select ((g : List (String × Bool)).map (fun b => if b.1 = name then (b.1, true) else b)) name

/-- Number of buttons of the group currently selected. -/
def RGroup.selectedCount (g : RGroup) : ℕ :=
  ((g : List (String × Bool)).filter (fun b => b.2)).length

/-! ## `src/tui/widgets/droplist.py` -/

/-- State of a `Droplist` (reactive attributes plus `__init__` fields). -/
structure Droplist where
  expanded : Bool
  items : List String
  selected : String
  max_height : ℤ
  listindex : ℤ
  top : ℤ
  ctrl_panel_row : ℤ
  deriving DecidableEq, Repr

/-- `Droplist.__init__`: `expanded = False`, `top = 0`, `listindex = 0`. -/
def Droplist.init (items : List String) (max_height : ℤ) (select : String)
    (row : ℤ) : Droplist :=
  { expanded := false, items := items, selected := select,
    max_height := max_height, listindex := 0, top := 0, ctrl_panel_row := row }

/-- `Droplist.on_click`.  `none` models the `IndexError` raised by
`self.items[self.listindex+self.top-1]` when that index is out of range. -/
def Droplist.on_click (d : Droplist) : Option (Droplist × List Msg) :=
  if !d.expanded then
    some ({ d with expanded := true },
      [Msg.rowHeightUpdate d.ctrl_panel_row (min ((d.items.length : ℤ) + 1) d.max_height)])
  else
    if d.listindex > 0 then
      match pyGet d.items (d.listindex + d.top - 1) with
      | none => none
      | some s =>
        some ({ d with selected := s, listindex := 0, expanded := false },
          [Msg.rowHeightUpdate d.ctrl_panel_row 1, Msg.buttonPressed])
    else
      some ({ d with listindex := 0, expanded := false },
        [Msg.rowHeightUpdate d.ctrl_panel_row 1, Msg.buttonPressed])

/-- `Droplist.on_mouse_scroll_up`. -/
def Droplist.on_mouse_scroll_up (d : Droplist) : Droplist :=
  if d.expanded && decide (d.top < (d.items.length : ℤ) - d.max_height) then
    { d with top := d.top + 1 }
  else d

/-- `Droplist.on_mouse_scroll_down`. -/
def Droplist.on_mouse_scroll_down (d : Droplist) : Droplist :=
  if d.expanded && decide (d.top > 0) then
    { d with top := d.top - 1 }
  else d

/-- A scroll event delivered to a `Droplist`. -/
inductive ScrollEvent : Type
  | up
  | down
  deriving DecidableEq, Repr

/-- Dispatch one scroll event. -/
def Droplist.scrollStep (d : Droplist) : ScrollEvent → Droplist
  | ScrollEvent.up => d.on_mouse_scroll_up
  | ScrollEvent.down => d.on_mouse_scroll_down

/-- Run a sequence of scroll events. -/
def Droplist.scrollRun (d : Droplist) (evs : List ScrollEvent) : Droplist :=
  evs.foldl Droplist.scrollStep d

/-- The scroll-position invariant of claim C9. -/
def Droplist.topInv (d : Droplist) : Prop :=
  0 ≤ d.top ∧ d.top ≤ max 0 ((d.items.length : ℤ) - d.max_height)

instance (d : Droplist) : Decidable d.topInv := by
  unfold Droplist.topInv; infer_instance

end Texttui

namespace Texttui

/-! ### Claim C8 -/

/-- C8: every `Checkbutton.on_click` negates `checked` and emits exactly one
`ButtonPressed`; applying `on_click` twice restores `checked` (the click is an
involution on `checked`). -/
theorem checkbutton_click_involution (c : Checkbutton) :
    c.on_click.1.checked = !c.checked ∧
    c.on_click.2 = [Msg.buttonPressed] ∧
    c.on_click.1.on_click.1.checked = c.checked := by
  refine ⟨rfl, rfl, ?_⟩
  simp [Checkbutton.on_click]

/-! ### Claim C7 -/

theorem rgroup_select_flag (g : RGroup) (name : String) :
    ∀ p ∈ RGroup.select g name, p.2 = (p.1 == name) := by
  intro p hp
  simp only [RGroup.select, List.mem_map] at hp
  obtain ⟨b, _, rfl⟩ := hp
  rfl

theorem rgroup_select_count_zero (g : RGroup) (name : String)
    (h : name ∉ (g : List (String × Bool)).map Prod.fst) :
    RGroup.selectedCount (RGroup.select g name) = 0 := by
  induction g with
  | nil => rfl
  | cons b t ih =>
    simp only [List.map_cons, List.mem_cons, not_or] at h
    have hb : (b.1 == name) = false := by
      simp only [beq_eq_false_iff_ne, ne_eq]
      exact fun hc => h.1 (by rw [hc])
    simp only [RGroup.select, RGroup.selectedCount, List.map_cons, List.filter_cons, hb] at *
    exact ih h.2

theorem rgroup_select_at_most_one (g : RGroup) (name : String)
    (h : ((g : List (String × Bool)).map Prod.fst).Nodup) :
    RGroup.selectedCount (RGroup.select g name) ≤ 1 := by
  induction g with
  | nil => exact Nat.zero_le 1
  | cons b t ih =>
    simp only [List.map_cons, List.nodup_cons] at h
    by_cases hb : b.1 = name
    · have : RGroup.selectedCount (RGroup.select t name) = 0 :=
        rgroup_select_count_zero t name (by rw [← hb]; exact h.1)
      simp only [RGroup.select, RGroup.selectedCount, List.map_cons, List.filter_cons] at *
      rw [show (b.1 == name) = true from beq_iff_eq.mpr hb]
      simpa using Nat.le_of_eq this
    · simp only [RGroup.select, RGroup.selectedCount, List.map_cons, List.filter_cons] at *
      rw [show (b.1 == name) = false from beq_eq_false_iff_ne.mpr hb]
      exact ih h.2

theorem rgroup_click_keys (g : RGroup) (name : String) :
    (RGroup.click g name : List (String × Bool)).map Prod.fst =
      (g : List (String × Bool)).map Prod.fst := by
  simp only [RGroup.click, RGroup.select, List.map_map]
  refine List.map_congr_left ?_
  intro b _
  by_cases hb : b.1 = name <;> simp [hb]

theorem rgroup_click_at_most_one (g : RGroup) (name : String)
    (h : ((g : List (String × Bool)).map Prod.fst).Nodup) :
    RGroup.selectedCount (RGroup.click g name) ≤ 1 := by
  refine rgroup_select_at_most_one _ name ?_
  have : ((g : List (String × Bool)).map
      (fun b => if b.1 = name then (b.1, true) else b)).map Prod.fst =
      (g : List (String × Bool)).map Prod.fst := by
    simp only [List.map_map]
    refine List.map_congr_left ?_
    intro b _
    by_cases hb : b.1 = name <;> simp [hb]
  rw [this]
  exact h

theorem rgroup_foldl_keys (g : RGroup) (clicks : List String) :
    ((clicks.foldl RGroup.click g : RGroup) : List (String × Bool)).map Prod.fst =
      (g : List (String × Bool)).map Prod.fst := by
  induction clicks generalizing g with
  | nil => rfl
  | cons a t ih => rw [List.foldl_cons, ih, rgroup_click_keys]

/-- C7: after `RadioGroup.select(name)` every button's `selected` flag equals
(its key = `name`) — so if `name` is a button of the group that button is
selected and all others are deselected; with the group's keys distinct
(a Python dict), at most one button is selected after `select`, and after any
nonempty sequence of `Radiobutton.on_click` events on buttons of the group at
most one button is selected. -/
theorem radiogroup_at_most_one_selected :
    (∀ (g : RGroup) (name : String), ∀ p ∈ RGroup.select g name, p.2 = (p.1 == name)) ∧
    (∀ (g : RGroup) (name : String), ((g : List (String × Bool)).map Prod.fst).Nodup →
      RGroup.selectedCount (RGroup.select g name) ≤ 1) ∧
    (∀ (g : RGroup) (clicks : List String),
      ((g : List (String × Bool)).map Prod.fst).Nodup → clicks ≠ [] →
      RGroup.selectedCount (clicks.foldl RGroup.click g) ≤ 1) := by
  refine ⟨rgroup_select_flag, rgroup_select_at_most_one, ?_⟩
  intro g clicks h hne
  rcases List.eq_nil_or_concat clicks with rfl | ⟨L, a, rfl⟩
  · exact absurd rfl hne
  · rw [List.concat_eq_append, List.foldl_concat]
    refine rgroup_click_at_most_one _ a ?_
    rw [rgroup_foldl_keys]
    exact h

/-- Witness for C7 at a concrete group and click sequence. -/
theorem radiogroup_at_most_one_selected_witness :
    RGroup.selectedCount
      (List.foldl RGroup.click ([("alpha", true), ("beta", true)] : RGroup)
        ["beta", "alpha"]) ≤ 1 :=
  radiogroup_at_most_one_selected.2.2 ([("alpha", true), ("beta", true)] : RGroup)
    ["beta", "alpha"] (by decide) (by decide)

/-! ### Claim C9 -/

theorem droplist_scroll_step_inv (d : Droplist) (e : ScrollEvent)
    (h : d.topInv) : (d.scrollStep e).topInv := by
  obtain ⟨h0, h1⟩ := h
  cases e with
  | up =>
    simp only [Droplist.scrollStep, Droplist.on_mouse_scroll_up]
    split
    · rename_i hc
      simp only [Bool.and_eq_true, decide_eq_true_eq] at hc
      refine ⟨?_, ?_⟩
      · show (0 : ℤ) ≤ d.top + 1
        omega
      · show d.top + 1 ≤ max 0 ((d.items.length : ℤ) - d.max_height)
        exact le_trans (by omega) (le_max_right _ _)
    · exact ⟨h0, h1⟩
  | down =>
    simp only [Droplist.scrollStep, Droplist.on_mouse_scroll_down]
    split
    · rename_i hc
      simp only [Bool.and_eq_true, decide_eq_true_eq] at hc
      refine ⟨?_, ?_⟩
      · show (0 : ℤ) ≤ d.top - 1
        omega
      · show d.top - 1 ≤ max 0 ((d.items.length : ℤ) - d.max_height)
        exact le_trans (by omega) h1
    · exact ⟨h0, h1⟩

/-- C9: `Droplist.top` starts at 0 (and the bound invariant holds initially);
the invariant `0 ≤ top ≤ max 0 (len(items) - max_height)` is preserved by every
sequence of scroll events; the scroll handlers do nothing when the list is not
expanded; and they modify nothing but `top`. -/
theorem droplist_scroll_top_invariant :
    (∀ (items : List String) (mh : ℤ) (sel : String) (row : ℤ),
      (Droplist.init items mh sel row).top = 0 ∧ (Droplist.init items mh sel row).topInv) ∧
    (∀ (d : Droplist) (evs : List ScrollEvent), d.topInv → (d.scrollRun evs).topInv) ∧
    (∀ (d : Droplist) (e : ScrollEvent), d.expanded = false → d.scrollStep e = d) ∧
    (∀ (d : Droplist) (e : ScrollEvent),
      (d.scrollStep e).expanded = d.expanded ∧ (d.scrollStep e).items = d.items ∧
      (d.scrollStep e).max_height = d.max_height ∧
      (d.scrollStep e).listindex = d.listindex) := by
  refine ⟨?_, ?_, ?_, ?_⟩
  · intro items mh sel row
    refine ⟨rfl, le_refl 0, le_max_left 0 _⟩
  · intro d evs h
    induction evs generalizing d with
    | nil => exact h
    | cons e t ih =>
      exact ih _ (droplist_scroll_step_inv d e h)
  · intro d e he
    cases e <;>
      simp [Droplist.scrollStep, Droplist.on_mouse_scroll_up,
        Droplist.on_mouse_scroll_down, he]
  · intro d e
    cases e <;>
      · simp only [Droplist.scrollStep, Droplist.on_mouse_scroll_up,
          Droplist.on_mouse_scroll_down]
        split <;> exact ⟨rfl, rfl, rfl, rfl⟩

/-- Witness for C9 at a concrete droplist and event sequence. -/
theorem droplist_scroll_top_invariant_witness :
    (Droplist.scrollRun
      { expanded := true, items := ["a", "b", "c", "d"], selected := "a",
        max_height := 2, listindex := 0, top := 1, ctrl_panel_row := 0 }
      [ScrollEvent.up, ScrollEvent.up, ScrollEvent.down]).topInv :=
  droplist_scroll_top_invariant.2.1
    { expanded := true, items := ["a", "b", "c", "d"], selected := "a",
      max_height := 2, listindex := 0, top := 1, ctrl_panel_row := 0 }
    [ScrollEvent.up, ScrollEvent.up, ScrollEvent.down] (by constructor <;> decide)

/-! ### Claim C6 -/

/-- C6: `Droplist.on_click` while collapsed expands the list and emits a
`RowHeightUpdate` with `new_height = min(len(items)+1, max_height)`; while
expanded it collapses the list, resets `listindex` to 0, updates `selected` to
`items[listindex+top-1]` exactly when `listindex > 0` (otherwise `selected` is
unchanged), and emits a `RowHeightUpdate` with `new_height = 1` followed by a
`ButtonPressed`.  (The selected-update case assumes the index is in range;
out of range, Python would raise `IndexError`, modelled by `none`.) -/
theorem droplist_on_click_spec :
    (∀ d : Droplist, d.expanded = false →
      d.on_click = some ({ d with expanded := true },
        [Msg.rowHeightUpdate d.ctrl_panel_row (min ((d.items.length : ℤ) + 1) d.max_height)])) ∧
    (∀ d : Droplist, d.expanded = true → d.listindex ≤ 0 →
      d.on_click = some ({ d with listindex := 0, expanded := false },
        [Msg.rowHeightUpdate d.ctrl_panel_row 1, Msg.buttonPressed])) ∧
    (∀ (d : Droplist) (s : String), d.expanded = true → d.listindex > 0 →
      pyGet d.items (d.listindex + d.top - 1) = some s →
      d.on_click = some ({ d with selected := s, listindex := 0, expanded := false },
        [Msg.rowHeightUpdate d.ctrl_panel_row 1, Msg.buttonPressed])) := by
  refine ⟨?_, ?_, ?_⟩
  · intro d he
    simp [Droplist.on_click, he]
  · intro d he hl
    simp [Droplist.on_click, he, show ¬(d.listindex > 0) by omega]
  · intro d s he hl hg
    simp [Droplist.on_click, he, hl, hg]

/-- Witness for C6 at a concrete droplist in each of the three cases. -/
theorem droplist_on_click_spec_witness :
    ((Droplist.init ["a", "b", "c"] 8 "" 2).on_click =
      some ({ Droplist.init ["a", "b", "c"] 8 "" 2 with expanded := true },
        [Msg.rowHeightUpdate 2 4])) ∧
    (({ expanded := true, items := ["a", "b", "c"], selected := "a", max_height := 8,
         listindex := 2, top := 0, ctrl_panel_row := 2 } : Droplist).on_click =
      some (({ expanded := false, items := ["a", "b", "c"], selected := "b",
               max_height := 8, listindex := 0, top := 0, ctrl_panel_row := 2 } : Droplist),
        [Msg.rowHeightUpdate 2 1, Msg.buttonPressed])) := by
  constructor
  · have h := droplist_on_click_spec.1 (Droplist.init ["a", "b", "c"] 8 "" 2) rfl
    rw [h]
    decide
  · have h := droplist_on_click_spec.2.2
      ({ expanded := true, items := ["a", "b", "c"], selected := "a", max_height := 8,
         listindex := 2, top := 0, ctrl_panel_row := 2 } : Droplist) "b" rfl
      (by decide) (by decide)
    rw [h]

end Texttui

namespace Texttui

/-! ## `src/tui/widgets/tuiplot.py` — data model -/

/-- `PlotExtents` (a `NamedTuple` in the source). -/
structure PlotExtents where
  xmin : ℤ
  xmax : ℤ
  ymin : ℤ
  ymax : ℤ
  deriving DecidableEq, Repr

/-- One write performed on `self.canvas` / `self.palette`.  The palette value
written is always the current style, so only the indices are recorded. -/
inductive PixelWrite : Type
  | canvas (row col : ℤ) (v : ℕ)
  | palette (row col : ℤ)
  deriving DecidableEq, Repr

/-- The guard of `TuiPlot._putpixel`, written exactly as in the source
(including the vacuous `ext.ymin - ext.ymin` lower bound). -/
def putpixelGuard (x y : ℤ) (ext : PlotExtents) : Prop :=
  ext.xmin ≤ x ∧ x < ext.xmax ∧ ext.ymin - ext.ymin ≤ y ∧ y < ext.ymax - ext.ymin

instance (x y : ℤ) (ext : PlotExtents) : Decidable (putpixelGuard x y ext) := by
  unfold putpixelGuard; infer_instance

/-- `TuiPlot._putpixel(x, y, ext)`: the writes it performs.  `conceal` is
`self.style.conceal`; a concealing style erases (`canvas[y][x] = 0`), otherwise
the cell is set and `palette[int(y/4)][int(x/2)]` is written. -/
def putpixelWrites (x y : ℤ) (ext : PlotExtents) (conceal : Bool) : List PixelWrite :=
  if putpixelGuard x y ext then
    if conceal then [PixelWrite.canvas y x 0]
    else [PixelWrite.canvas y x 1,
          PixelWrite.palette (pytrunc ((y : ℚ) / 4)) (pytrunc ((x : ℚ) / 2))]
  else []

/-- Bounds satisfied by one write, for a canvas of `height*4 × width*2`
sub-cells and a palette of `height × width` character cells. -/
def writeInBounds (width height : ℤ) : PixelWrite → Prop
  | PixelWrite.canvas r c _ => 0 ≤ r ∧ r < 4 * height ∧ 0 ≤ c ∧ c < 2 * width
  | PixelWrite.palette r c => 0 ≤ r ∧ r < height ∧ 0 ≤ c ∧ c < width

theorem pytrunc_of_nonneg (q : ℚ) (h : 0 ≤ q) : pytrunc q = ⌊q⌋ := if_pos h

theorem pytrunc_div_bounds (y : ℤ) (k : ℚ) (b : ℤ) (hk : 0 < k) (h0 : 0 ≤ y)
    (h1 : (y : ℚ) < k * (b : ℚ)) :
    0 ≤ pytrunc ((y : ℚ) / k) ∧ pytrunc ((y : ℚ) / k) < b := by
  have hq0 : (0 : ℚ) ≤ (y : ℚ) / k := by
    apply div_nonneg _ (le_of_lt hk)
    exact_mod_cast h0
  rw [pytrunc_of_nonneg _ hq0]
  constructor
  · exact Int.floor_nonneg.mpr hq0
  · rw [Int.floor_lt]
    rw [div_lt_iff₀ hk]
    linarith [h1]

/-! ### Claim C10 -/

/-- C10: `_putpixel` writes only under its guard
(`ext.xmin ≤ x < ext.xmax` and `0 ≤ y < ext.ymax - ext.ymin`); under the
preconditions `0 ≤ ext.xmin`, `ext.xmax ≤ 2*width`,
`ext.ymax - ext.ymin ≤ 4*height`, every canvas and palette index it writes is
within the allocated `height*4 × width*2` canvas and `height × width` palette,
with no negative index. -/
theorem putpixel_writes_in_bounds (x y : ℤ) (ext : PlotExtents) (conceal : Bool)
    (width height : ℤ)
    (hxmin : 0 ≤ ext.xmin) (hxmax : ext.xmax ≤ 2 * width)
    (hymax : ext.ymax - ext.ymin ≤ 4 * height) :
    (¬ putpixelGuard x y ext → putpixelWrites x y ext conceal = []) ∧
    (∀ w ∈ putpixelWrites x y ext conceal,
      putpixelGuard x y ext ∧ writeInBounds width height w) := by
  constructor
  · intro hg
    simp [putpixelWrites, hg]
  · intro w hw
    by_cases hg : putpixelGuard x y ext
    · refine ⟨hg, ?_⟩
      obtain ⟨g1, g2, g3, g4⟩ := id hg
      have hy0 : 0 ≤ y := by omega
      have hx0 : 0 ≤ x := by omega
      have hyb : y < 4 * height := by omega
      have hxb : x < 2 * width := by omega
      have hpal4 := pytrunc_div_bounds y 4 height (by norm_num) hy0
        (by push_cast; exact_mod_cast (by omega : y < 4 * height))
      have hpal2 := pytrunc_div_bounds x 2 width (by norm_num) hx0
        (by push_cast; exact_mod_cast (by omega : x < 2 * width))
      unfold putpixelWrites at hw
      rw [if_pos hg] at hw
      cases conceal with
      | true =>
        simp only [if_true, List.mem_singleton] at hw
        subst hw
        exact ⟨hy0, hyb, hx0, hxb⟩
      | false =>
        simp only [Bool.false_eq_true, if_false, List.mem_cons,
          List.not_mem_nil, or_false] at hw
        rcases hw with rfl | rfl
        · exact ⟨hy0, hyb, hx0, hxb⟩
        · exact ⟨hpal4.1, hpal4.2, hpal2.1, hpal2.2⟩
    · simp [putpixelWrites, hg] at hw

/-- Witness for C10 at a concrete pixel, extents, canvas size and write. -/
theorem putpixel_writes_in_bounds_witness :
    putpixelGuard 3 5 ⟨0, 20, 2, 42⟩ ∧ writeInBounds 10 10 (PixelWrite.canvas 5 3 1) :=
  (putpixel_writes_in_bounds 3 5 ⟨0, 20, 2, 42⟩ false 10 10
    (by decide) (by decide) (by decide)).2 (PixelWrite.canvas 5 3 1) (by decide)

end Texttui

namespace Texttui

/-! ## `src/tui/layouts/control_panel_layout.py` -/

/-- `textual.layouts.grid.GridOptions` (host-framework dataclass: `name`,
`size`, `fraction`, `min_size`, `max_size`). -/
structure GridOptions where
  name : String
  size : Option ℤ := none
  fraction : ℤ := 1
  min_size : ℤ := 1
  max_size : Option ℤ := none
  deriving DecidableEq, Repr, Inhabited

/-- The `ControlPanelLayout` state that row handling touches: the `rows` list
(appended to by `GridLayout.add_row`), `spacer_count`, and `hidden_rows`. -/
structure CPLayout where
  rows : List GridOptions
  spacer_count : ℕ
  hidden_rows : List String
  deriving Repr

/-- `ControlPanelLayout.add_row(name, size=..., spacer=...)` (the parameters
other than `name`, `size` and `spacer` play no role in the claims checked
here; `repeat=1`, the default, appends a single `GridOptions`).  A nonzero
`spacer` appends a `spacer{count}` row of that fixed size. -/
def CPLayout.add_row (l : CPLayout) (name : String) (size : Option ℤ)
    (spacer : ℤ) : CPLayout :=
  let l1 : CPLayout := { l with rows := l.rows ++ [{ name := name, size := size }] }
  if spacer ≠ 0 then
    { l1 with
      rows := l1.rows ++
        [{ name := "spacer" ++ toString l1.spacer_count, size := some spacer }],
      spacer_count := l1.spacer_count + 1 }
  else l1

/-- The non-hidden rows (`options.name not in self.hidden_rows`), in order:
the rows handed to `resolve_tracks`. -/
def CPLayout.visibleRows (l : CPLayout) : List GridOptions :=
  l.rows.filter (fun o => !(l.hidden_rows.contains o.name))

/-- `row_names` as produced by `resolve_tracks` with `repeat=False`: the
names of the visible rows in order; row index `r` of the resolved grid refers
to `row_names[r]`. -/
def CPLayout.rowNames (l : CPLayout) : List String :=
  l.visibleRows.map GridOptions.name

/-- `active_rows` as computed in `arrange`: indices `r < row_count` such that
`"spacer" not in self.rows[r].name` — note the source indexes the **full**
`self.rows` list with a **resolved-grid** row index. -/
def CPLayout.activeRows (l : CPLayout) : List ℕ :=
  (List.range l.rowNames.length).filter
    (fun r => !(charsContain "spacer".toList ((l.rows.getD r default).name.toList)))

/-- `sorted(product(range(column_count), active_rows), key=itemgetter(1, 0))`
in the configuration where every slot is free (no area-assigned widgets, no
column spans).  Insertion sort is stable, like Python's `sorted`; the keys
here are distinct pairs, so any correct sort yields the same list. -/
def gridSlots (ncols : ℕ) (active : List ℕ) : List (ℕ × ℕ) :=
  List.insertionSort (fun a b => a.2 < b.2 ∨ (a.2 = b.2 ∧ a.1 ≤ b.1))
    ((List.range ncols).bind (fun c => active.map (fun r => (c, r))))

/-- The resolved row name of the slot each auto-placed widget receives:
widget `k` of `auto_widgets` is zipped with `grid_slots[k]`, and its placement
uses the tracks of `row_names[row]`. -/
def CPLayout.autoRowNames (l : CPLayout) (ncols nAuto : ℕ) : List String :=
  ((gridSlots ncols l.activeRows).take nAuto).map (fun s => l.rowNames.getD s.2 "")

/-- The layout of the C4 counterexample: `add_row("row1", spacer=1)` then
`add_row("row2")`, with row `"row1"` hidden. -/
def c4Layout : CPLayout :=
  ((({ rows := [], spacer_count := 0, hidden_rows := [] } : CPLayout).add_row
      "row1" none 1).add_row "row2" none 0)

/-- `c4Layout` with `"row1"` in `hidden_rows`. -/
def c4Hidden : CPLayout := { c4Layout with hidden_rows := ["row1"] }

/-! ### Claim C4 -/

/-- C4 counterexample: with rows `["row1", "spacer0", "row2"]` (the spacer row
added by `add_row("row1", spacer=1)`) and `"row1"` hidden, the single
auto-placed widget is placed into the grid slot of resolved row 0, whose row
name is `"spacer0"` — a spacer row.  The `active_rows` filter reads
`self.rows[r].name` with `r` an index into the *visible* row list, so hiding
`"row1"` shifts the correspondence and the spacer row receives the widget. -/
theorem c4_autoplace_hits_spacer_row :
    c4Hidden.rows.map GridOptions.name = ["row1", "spacer0", "row2"] ∧
    c4Hidden.autoRowNames 1 1 = ["spacer0"] ∧
    charsContain "spacer".toList "spacer0".toList = true := by
  decide

end Texttui

namespace Texttui

/-! ### Claim C5 — the inner `resolve` of `ControlPanelLayout.arrange`

`layout_resolve` is host-framework code; its output is taken as an arbitrary
list `raw` of track sizes, so the theorems hold for every possible output. -/

/-- One element of the capped track list:
`track if edge.max_size is None else min(edge.max_size, track)`. -/
def capTrack (track : ℤ) (edge : GridOptions) : ℤ :=
  match edge.max_size with
  | none => track
  | some m => min m track

/-- The `tracks` list built in `resolve` (Python `zip` truncates to the
shorter list). -/
def cappedTracks (raw : List ℤ) (edges : List GridOptions) : List ℤ :=
  List.zipWith capTrack raw edges

/-- The span generator of `resolve` with `repeat=False`: no break is possible
(`index >= edge_count` never holds), so every track yields
`(total, total + track)` and `total` then advances by `track + gap`. -/
def trackSpans (gap : ℤ) : List ℤ → ℤ → List (ℤ × ℤ)
  | [], _ => []
  | t :: rest, total => (total, total + t) :: trackSpans gap rest (total + t + gap)

/-- The span generator of `resolve` with `repeat=True`: tracks cycle, and the
generator stops when `total + track >= size and index >= edge_count`
(`n = len(edges)`).  `fuel` bounds how much of the (potentially unbounded)
generator is consumed; every theorem quantifies over `fuel`. -/
def trackSpansRepeat (capped : List ℤ) (n : ℕ) (size gap : ℤ) :
    ℕ → ℕ → ℤ → List (ℤ × ℤ)
  | 0, _, _ => []
  | fuel+1, index, total =>
    if size ≤ total + capped.getD (index % capped.length) 0 ∧ n ≤ index then []
    else (total, total + capped.getD (index % capped.length) 0) ::
      trackSpansRepeat capped n size gap fuel (index + 1)
        (total + capped.getD (index % capped.length) 0 + gap)

/-- The list of `(start, end)` spans yielded by `resolve(size, edges, gap,
repeat)` when `layout_resolve(size - total_gap, edges)` returns `raw`. -/
def resolveSpans (size : ℤ) (raw : List ℤ) (edges : List GridOptions) (gap : ℤ)
    (rep : Bool) (fuel : ℕ) : List (ℤ × ℤ) :=
  match rep with
  | true =>
    if (cappedTracks raw edges).isEmpty then []
    else trackSpansRepeat (cappedTracks raw edges) edges.length size gap fuel 0 0
  | false => trackSpans gap (cappedTracks raw edges) 0

theorem trackSpans_length (gap : ℤ) (ts : List ℤ) (total : ℤ) :
    (trackSpans gap ts total).length = ts.length := by
  induction ts generalizing total with
  | nil => rfl
  | cons t rest ih => simp [trackSpans, ih]

theorem trackSpans_len_getD (gap : ℤ) (ts : List ℤ) :
    ∀ (total : ℤ) (i : ℕ), i < ts.length →
      ((trackSpans gap ts total).getD i (0, 0)).2 -
        ((trackSpans gap ts total).getD i (0, 0)).1 = ts.getD i 0 := by
  induction ts with
  | nil => intro total i h; simp at h
  | cons t rest ih =>
    intro total i h
    cases i with
    | zero => simp [trackSpans]
    | succ j =>
      simp only [trackSpans, List.getD_cons_succ]
      exact ih _ j (by simpa using h)

theorem trackSpans_head_start (gap : ℤ) (ts : List ℤ) (total : ℤ)
    (h : ts ≠ []) : ((trackSpans gap ts total).getD 0 (0, 0)).1 = total := by
  cases ts with
  | nil => exact absurd rfl h
  | cons t rest => simp [trackSpans]

theorem trackSpans_contig (gap : ℤ) (ts : List ℤ) :
    ∀ (total : ℤ) (i : ℕ), i + 1 < ts.length →
      ((trackSpans gap ts total).getD (i+1) (0, 0)).1 =
        ((trackSpans gap ts total).getD i (0, 0)).2 + gap := by
  induction ts with
  | nil => intro total i h; simp at h
  | cons t rest ih =>
    intro total i h
    cases i with
    | zero =>
      simp only [trackSpans, List.getD_cons_succ, List.getD_cons_zero]
      rw [trackSpans_head_start gap rest (total + t + gap)
        (by intro hc; subst hc; simp at h)]
    | succ j =>
      simp only [trackSpans, List.getD_cons_succ]
      exact ih _ j (by simpa using h)

theorem tsr_len_getD (capped : List ℤ) (n : ℕ) (size gap : ℤ) :
    ∀ (fuel index : ℕ) (total : ℤ) (i : ℕ),
      i < (trackSpansRepeat capped n size gap fuel index total).length →
      ((trackSpansRepeat capped n size gap fuel index total).getD i (0, 0)).2 -
        ((trackSpansRepeat capped n size gap fuel index total).getD i (0, 0)).1 =
        capped.getD ((index + i) % capped.length) 0 := by
  intro fuel
  induction fuel with
  | zero =>
    intro index total i h
    simp only [trackSpansRepeat, List.length_nil] at h
    omega
  | succ f ih =>
    intro index total i h
    simp only [trackSpansRepeat] at h ⊢
    by_cases hc : size ≤ total + capped.getD (index % capped.length) 0 ∧ n ≤ index
    · rw [if_pos hc] at h
      simp at h
    · rw [if_neg hc] at h ⊢
      cases i with
      | zero => simp
      | succ j =>
        simp only [List.getD_cons_succ]
        rw [ih (index + 1) _ j (by simpa using h)]
        rw [show index + 1 + j = index + (j + 1) from by omega]

theorem tsr_head_start (capped : List ℤ) (n : ℕ) (size gap : ℤ)
    (fuel index : ℕ) (total : ℤ) :
    trackSpansRepeat capped n size gap fuel index total = [] ∨
      ((trackSpansRepeat capped n size gap fuel index total).getD 0 (0, 0)).1 = total := by
  cases fuel with
  | zero => exact Or.inl rfl
  | succ f =>
    by_cases hc : size ≤ total + capped.getD (index % capped.length) 0 ∧ n ≤ index
    · left
      simp only [trackSpansRepeat]
      rw [if_pos hc]
    · right
      simp only [trackSpansRepeat]
      rw [if_neg hc]
      simp

theorem tsr_contig (capped : List ℤ) (n : ℕ) (size gap : ℤ) :
    ∀ (fuel index : ℕ) (total : ℤ) (i : ℕ),
      i + 1 < (trackSpansRepeat capped n size gap fuel index total).length →
      ((trackSpansRepeat capped n size gap fuel index total).getD (i+1) (0, 0)).1 =
        ((trackSpansRepeat capped n size gap fuel index total).getD i (0, 0)).2 + gap := by
  intro fuel
  induction fuel with
  | zero =>
    intro index total i h
    simp only [trackSpansRepeat, List.length_nil] at h
    omega
  | succ f ih =>
    intro index total i h
    simp only [trackSpansRepeat] at h ⊢
    by_cases hc : size ≤ total + capped.getD (index % capped.length) 0 ∧ n ≤ index
    · rw [if_pos hc] at h
      simp at h
    · rw [if_neg hc] at h ⊢
      cases i with
      | zero =>
        simp only [List.getD_cons_succ, List.getD_cons_zero]
        rcases tsr_head_start capped n size gap f (index + 1)
          (total + capped.getD (index % capped.length) 0 + gap) with hnil | hstart
        · rw [hnil] at h; simp at h
        · rw [hstart]
      | succ j =>
        simp only [List.getD_cons_succ]
        exact ih (index + 1) _ j (by simpa using h)

theorem cappedTracks_le (raw : List ℤ) (edges : List GridOptions) :
    ∀ (j : ℕ) (e : GridOptions) (m : ℤ), edges.get? j = some e →
      e.max_size = some m → j < (cappedTracks raw edges).length →
      (cappedTracks raw edges).getD j 0 ≤ m := by
  induction raw generalizing edges with
  | nil => intro j e m _ _ hj; simp [cappedTracks] at hj
  | cons a ra ih =>
    intro j e m he hm hj
    cases edges with
    | nil => simp [cappedTracks] at hj
    | cons b eb =>
      cases j with
      | zero =>
        simp only [List.get?_cons_zero, Option.some_inj] at he
        subst he
        simp only [cappedTracks, List.zipWith_cons_cons, List.getD_cons_zero]
        rw [capTrack, hm]
        exact min_le_left _ _
      | succ k =>
        simp only [List.get?_cons_succ] at he
        simp only [cappedTracks, List.zipWith_cons_cons, List.getD_cons_succ,
          List.length_cons] at hj ⊢
        exact ih eb k e m he hm (by simp only [cappedTracks]; omega)

/-- C5: for every total size, gap, edge list and every possible
`layout_resolve` output, in both the `repeat=False` and `repeat=True` modes:
each yielded track paired with an edge whose `max_size` is set has length at
most that `max_size`, and consecutive yielded tracks are contiguous — each
track's start equals the previous track's end plus the gap. -/
theorem resolve_spans_capped_and_contiguous (size gap : ℤ) (raw : List ℤ)
    (edges : List GridOptions) (rep : Bool) (fuel : ℕ) :
    (∀ i, i < (resolveSpans size raw edges gap rep fuel).length →
      ∀ e m, edges.get? (i % (cappedTracks raw edges).length) = some e →
        e.max_size = some m →
        ((resolveSpans size raw edges gap rep fuel).getD i (0, 0)).2 -
          ((resolveSpans size raw edges gap rep fuel).getD i (0, 0)).1 ≤ m) ∧
    (∀ i, i + 1 < (resolveSpans size raw edges gap rep fuel).length →
      ((resolveSpans size raw edges gap rep fuel).getD (i+1) (0, 0)).1 =
        ((resolveSpans size raw edges gap rep fuel).getD i (0, 0)).2 + gap) := by
  cases rep with
  | false =>
    constructor
    · intro i hi e m he hm
      simp only [resolveSpans] at hi ⊢
      rw [trackSpans_length] at hi
      rw [trackSpans_len_getD gap _ 0 i hi]
      rw [Nat.mod_eq_of_lt hi] at he
      exact cappedTracks_le raw edges i e m he hm hi
    · intro i hi
      simp only [resolveSpans] at hi ⊢
      rw [trackSpans_length] at hi
      exact trackSpans_contig gap _ 0 i hi
  | true =>
    constructor
    · intro i hi e m he hm
      simp only [resolveSpans] at hi ⊢
      by_cases hemp : (cappedTracks raw edges).isEmpty
      · rw [if_pos hemp] at hi
        simp at hi
      · rw [if_neg hemp] at hi ⊢
        rw [tsr_len_getD _ _ _ _ _ _ _ i hi]
        simp only [Nat.zero_add]
        refine cappedTracks_le raw edges _ e m he hm ?_
        refine Nat.mod_lt _ ?_
        rcases Nat.eq_zero_or_pos (cappedTracks raw edges).length with h0 | h0
        · exact absurd (List.isEmpty_iff.mpr (List.length_eq_zero.mp h0)) hemp
        · exact h0
    · intro i hi
      simp only [resolveSpans] at hi ⊢
      by_cases hemp : (cappedTracks raw edges).isEmpty
      · rw [if_pos hemp] at hi
        simp at hi
      · rw [if_neg hemp] at hi ⊢
        exact tsr_contig _ _ _ _ _ _ _ i hi

/-- Witness for C5 at a concrete edge list and raw track list:
`edges = [a (max_size 5), b]`, `raw = [9, 3]`, `gap = 1` gives spans
`[(0,5), (6,9)]` — the first track capped to 5 and the second starting at
`5 + 1`. -/
theorem resolve_spans_capped_and_contiguous_witness :
    (((resolveSpans 100 [9, 3] [{ name := "a", max_size := some 5 },
        { name := "b" }] 1 false 0).getD 0 (0, 0)).2 -
      ((resolveSpans 100 [9, 3] [{ name := "a", max_size := some 5 },
        { name := "b" }] 1 false 0).getD 0 (0, 0)).1 ≤ 5) ∧
    ((resolveSpans 100 [9, 3] [{ name := "a", max_size := some 5 },
        { name := "b" }] 1 false 0).getD 1 (0, 0)).1 =
      ((resolveSpans 100 [9, 3] [{ name := "a", max_size := some 5 },
        { name := "b" }] 1 false 0).getD 0 (0, 0)).2 + 1 :=
  ⟨(resolve_spans_capped_and_contiguous 100 1 [9, 3]
      [{ name := "a", max_size := some 5 }, { name := "b" }] false 0).1 0
      (by decide) { name := "a", max_size := some 5 } 5 (by decide) rfl,
    (resolve_spans_capped_and_contiguous 100 1 [9, 3]
      [{ name := "a", max_size := some 5 }, { name := "b" }] false 0).2 0
      (by decide)⟩

end Texttui

namespace Texttui

/-! ## `TuiPlot.draw_line` (claims C1, C3)

`draw_line` writes `canvas[row][col] = 1` for each plotted pixel (and the
style to `palette[row//4][col//2]`, at indices determined by the same guard
and cell; only the canvas cells are recorded here, which is what claim C1 is
about).  A written cell is recorded as the pair `(row, col)`.

`draw_line` accumulates its error term in Python floats (`derror = abs(dy/dx)`,
`err += derror`, `err -= 1`), and an accumulated sum of rounded values is not
exact rational arithmetic: the model therefore applies binary64
round-to-nearest (`fl`) at every float operation — the division producing
`derror`, each `err` update, and the scale/endpoint computations.

The exact rational operations feeding `fl` are written with the helpers
`qAdd`/`qSub`/`qMul`/`qDiv` below, which build the result with `Rat.divInt`
instead of the `ℚ` field operations: the values are the same (proved in
`qAdd_eq_add` … `qDiv_eq_div`), but `Rat.divInt` evaluates by kernel
reduction, which the counterexample and witnesses need. -/

/-- `a + b` on `ℚ`, via `Rat.divInt` (same value, kernel-reducible). -/
def qAdd (a b : ℚ) : ℚ := Rat.divInt (a.num * b.den + b.num * a.den) ((a.den : ℤ) * b.den)

/-- `a - b` on `ℚ`, via `Rat.divInt`. -/
def qSub (a b : ℚ) : ℚ := Rat.divInt (a.num * b.den - b.num * a.den) ((a.den : ℤ) * b.den)

/-- `a * b` on `ℚ`, via `Rat.divInt`. -/
def qMul (a b : ℚ) : ℚ := Rat.divInt (a.num * b.num) ((a.den : ℤ) * b.den)

/-- `a / b` on `ℚ`, via `Rat.divInt` (both are 0 at `b = 0`). -/
def qDiv (a b : ℚ) : ℚ := Rat.divInt (a.num * b.den) ((a.den : ℤ) * b.num)

theorem qAdd_eq_add (a b : ℚ) : qAdd a b = a + b := by
  rw [qAdd, Rat.divInt_eq_div]
  conv_rhs => rw [← Rat.num_div_den a, ← Rat.num_div_den b]
  have ha : ((a.den : ℚ)) ≠ 0 := by exact_mod_cast a.den_ne_zero
  have hb : ((b.den : ℚ)) ≠ 0 := by exact_mod_cast b.den_ne_zero
  rw [div_add_div _ _ ha hb]
  push_cast
  ring_nf

theorem qSub_eq_sub (a b : ℚ) : qSub a b = a - b := by
  rw [qSub, Rat.divInt_eq_div]
  conv_rhs => rw [← Rat.num_div_den a, ← Rat.num_div_den b]
  have ha : ((a.den : ℚ)) ≠ 0 := by exact_mod_cast a.den_ne_zero
  have hb : ((b.den : ℚ)) ≠ 0 := by exact_mod_cast b.den_ne_zero
  rw [div_sub_div _ _ ha hb]
  push_cast
  ring_nf

theorem qMul_eq_mul (a b : ℚ) : qMul a b = a * b := by
  rw [qMul, Rat.divInt_eq_div]
  conv_rhs => rw [← Rat.num_div_den a, ← Rat.num_div_den b]
  rw [div_mul_div_comm]
  push_cast
  ring_nf

theorem qDiv_eq_div (a b : ℚ) : qDiv a b = a / b := by
  by_cases hb : b = 0
  · subst hb
    rw [qDiv]
    simp
  · rw [qDiv, Rat.divInt_eq_div]
    conv_rhs => rw [← Rat.num_div_den a, ← Rat.num_div_den b]
    have ha : ((a.den : ℚ)) ≠ 0 := by exact_mod_cast a.den_ne_zero
    have hbn : ((b.num : ℚ)) ≠ 0 := by
      exact_mod_cast Rat.num_ne_zero.mpr hb
    rw [div_div_div_comm]
    push_cast
    ring_nf
    rw [inv_inv]
    ring

/-- `⌊log2 n⌋` for `n ≥ 1`, by fuelled halving (the fuel `n` itself always
suffices), so that it evaluates by kernel reduction. -/
def log2fuel : ℕ → ℕ → ℕ
  | 0, _ => 0
  | f + 1, n => if n ≤ 1 then 0 else log2fuel f (n / 2) + 1

/-- `⌊log2 n⌋` for `n ≥ 1` (0 for `n = 0`). -/
def ilog2 (n : ℕ) : ℕ := log2fuel n n

/-- `2^e : ℚ` for an integer exponent (via `Rat.divInt`, kernel-reducible). -/
def pow2 : ℤ → ℚ
  | Int.ofNat n => Rat.divInt (((2 ^ n : ℕ) : ℤ)) 1
  | Int.negSucc n => Rat.divInt 1 (((2 ^ (n + 1) : ℕ) : ℤ))

/-- `⌊log2 q⌋` for a positive rational: `⌊log2 num⌋ - ⌊log2 den⌋` is either
the answer or one too large, corrected by one comparison. -/
def qlog2 (q : ℚ) : ℤ :=
  let a : ℤ := (ilog2 q.num.toNat : ℤ) - (ilog2 q.den : ℤ)
  if q < pow2 a then a - 1 else a

/-- Round a positive rational to 53 significant bits, round-to-nearest with
ties to even: scale into `[2^52, 2^53)`, round the scaled value `s` to an
integer (half-to-even; `s > 0`, so `⌊s⌋ = s.num.toNat / s.den` by natural
division), scale back. -/
def flPos (q : ℚ) : ℚ :=
  let scale := pow2 (52 - qlog2 q)
  let s := qMul q scale
  let n : ℤ := ((s.num.toNat / s.den : ℕ) : ℤ)
  let fr := qSub s (Rat.divInt n 1)
  let m : ℤ :=
    if Rat.divInt 1 2 < fr then n + 1
    else if fr < Rat.divInt 1 2 then n
    else if n % 2 = 0 then n else n + 1
  qMul (Rat.divInt m 1) (pow2 (qlog2 q - 52))

/-- The IEEE-754 binary64 value nearest a rational (round to nearest, ties to
even), with unbounded exponent: overflow and subnormal rounding are not
modelled, so `fl` is exact double semantics for values inside the normal
range — where every float of the calls checked here lies. -/
def fl (q : ℚ) : ℚ :=
  if q = 0 then 0 else if q < 0 then -flPos (-q) else flPos q

theorem fl_zero : fl 0 = 0 := by simp [fl]

/-- The plot statement of `draw_line`'s loops: in steep mode the guard tests
`y` against the x-extents and `x` against the y-extents and writes
`canvas[x][y]`; otherwise the roles are as written.  Returns the written
cells `(row, col)`. -/
def plotPt (steep : Bool) (ext : PlotExtents) (x y : ℤ) : List (ℤ × ℤ) :=
  if steep then
    if ext.xmin ≤ y ∧ y < ext.xmax ∧ ext.ymin - ext.ymin ≤ x ∧ x < ext.ymax - ext.ymin then
      [(x, y)]
    else []
  else
    if ext.xmin ≤ x ∧ x < ext.xmax ∧ ext.ymin - ext.ymin ≤ y ∧ y < ext.ymax - ext.ymin then
      [(y, x)]
    else []

/-- The `while x <= xr` loop of `draw_line`: plot, `err += derror` (a float
addition, i.e. the exact sum rounded by `fl`), step `y` and `err -= 1`
(again rounded) when `err > 0.5`.  The number of iterations `xr - xl + 1` is
the fuel. -/
def lineLoop (steep : Bool) (ext : PlotExtents) (ystep : ℤ) (derror : ℚ) :
    ℕ → ℤ → ℤ → ℚ → List (ℤ × ℤ)
  | 0, _, _, _ => []
  | n+1, x, y, err =>
    plotPt steep ext x y ++
      (if Rat.divInt 1 2 < fl (qAdd err derror) then
        lineLoop steep ext ystep derror n (x + 1) (y + ystep)
          (fl (qSub (fl (qAdd err derror)) 1))
      else lineLoop steep ext ystep derror n (x + 1) y (fl (qAdd err derror)))

/-- `draw_line` after the steep and left-right swaps, with `xl ≤ xr`.
When `dx = 0` and `dy = 0` a single point is plotted.  When `dx = 0` and
`dy ≠ 0` the source sorts `yl ≤ yr` and enters the vertical-line loop, but an
unconditional `return` inside that loop stops it after its first iteration,
so only the pixel at `y = min yl yr` is plotted (this branch turns out to be
unreachable: after the steep swap `dx = 0` forces `dy = 0`). -/
def lineCore (steep : Bool) (ext : PlotExtents) (xl yl xr yr : ℤ) : List (ℤ × ℤ) :=
  if xr - xl = 0 then
    if yr - yl = 0 then plotPt steep ext xl yl
    else plotPt steep ext xl (min yl yr)
  else
    lineLoop steep ext (if yr > yl then 1 else -1)
      (|fl (Rat.divInt (yr - yl) (xr - xl))|)
      ((xr - xl).toNat + 1) xl yl 0

/-- The left-right endpoint swap (`if xr < xl`). -/
def lineSorted (steep : Bool) (ext : PlotExtents) (xl yl xr yr : ℤ) : List (ℤ × ℤ) :=
  if xr < xl then lineCore steep ext xr yr xl yl else lineCore steep ext xl yl xr yr

/-- `draw_line` on the already-scaled integer endpoints: steep test
(`abs(xl-xr) < abs(yl-yr)`) swaps each point's coordinates. -/
def lineWrites (xl yl xr yr : ℤ) (ext : PlotExtents) : List (ℤ × ℤ) :=
  if |xl - xr| < |yl - yr| then lineSorted true ext yl xl yr xr
  else lineSorted false ext xl yl xr yr

/-- The `TuiPlot` state used by the drawing methods: virtual extents
(`set_x_extents` / `set_y_extents`), plot size in sub-cells (`set_width` /
`set_height`), and whether the current style conceals. -/
structure TuiPlot where
  x_min : ℚ
  x_max : ℚ
  y_min : ℚ
  y_max : ℚ
  plot_width : ℤ
  plot_height : ℤ
  conceal : Bool

/-- `xscale = self.plot_width / (self.x_max - self.x_min)`. -/
def TuiPlot.xscale (p : TuiPlot) : ℚ := (p.plot_width : ℚ) / (p.x_max - p.x_min)

/-- `yscale = self.plot_height / (self.y_max - self.y_min)`. -/
def TuiPlot.yscale (p : TuiPlot) : ℚ := (p.plot_height : ℚ) / (p.y_max - p.y_min)

/-- The integer extents `(x_min, x_max, y_min, y_max)` computed at the top of
`draw_circle` / filled `draw_rect`.  Claims C2 and C10 use this exact-product
form: the same expressions appear on both sides of their theorems, so the
rounding of the scale products cancels there. -/
def TuiPlot.extents (p : TuiPlot) : PlotExtents :=
  ⟨pytrunc (p.x_min * p.xscale), pytrunc (p.x_max * p.xscale),
   pytrunc (p.y_min * p.yscale), pytrunc (p.y_max * p.yscale)⟩

/-- `xscale` with each float operation rounded: the subtraction
`self.x_max - self.x_min` and the division are both binary64 operations. -/
def TuiPlot.xscaleF (p : TuiPlot) : ℚ :=
  fl (qDiv (Rat.divInt p.plot_width 1) (fl (qSub p.x_max p.x_min)))

/-- `yscale` with each float operation rounded. -/
def TuiPlot.yscaleF (p : TuiPlot) : ℚ :=
  fl (qDiv (Rat.divInt p.plot_height 1) (fl (qSub p.y_max p.y_min)))

/-- The integer extents computed at the top of `draw_line`, with the float
products rounded before `int()` truncation. -/
def TuiPlot.extentsF (p : TuiPlot) : PlotExtents :=
  ⟨pytrunc (fl (qMul p.x_min p.xscaleF)), pytrunc (fl (qMul p.x_max p.xscaleF)),
   pytrunc (fl (qMul p.y_min p.yscaleF)), pytrunc (fl (qMul p.y_max p.yscaleF))⟩

/-- `TuiPlot.draw_line(x1, y1, x2, y2)`: canvas cells written, with binary64
rounding at every float operation (scales, endpoint products, and the error
accumulation inside `lineWrites`).  Meaningful under `x_max ≠ x_min` and
`y_max ≠ y_min` (otherwise Python raises `ZeroDivisionError` computing the
scales). -/
def TuiPlot.draw_line (p : TuiPlot) (x1 y1 x2 y2 : ℚ) : List (ℤ × ℤ) :=
  lineWrites (pytrunc (fl (qMul x1 p.xscaleF)))
    (pytrunc (fl (qMul y1 p.yscaleF)) - p.extentsF.ymin)
    (pytrunc (fl (qMul x2 p.xscaleF)))
    (pytrunc (fl (qMul y2 p.yscaleF)) - p.extentsF.ymin)
    p.extentsF

/-! Spec side of C1, modelled from the spec's words "the Bresenham line
between the scaled integer endpoints", as the textbook integer-arithmetic
Bresenham algorithm (plotLineLow / plotLineHigh octant dispatch, decision
variable `D`).  When `|dy| = |dx|` both octant cases trace the exact
diagonal; this definition resolves the tie to the shallow-slope case,
matching a rasterization by x. -/

/-- Modelled from the spec: the textbook Bresenham loop for the shallow
octant — plot `(x, y)`, step `y` by `yi` when the decision variable `D` is
positive, update `D` by `2*(dy - dx)` or `2*dy`. -/
def bresLoop (yi dx dy : ℤ) : ℕ → ℤ → ℤ → ℤ → List (ℤ × ℤ)
  | 0, _, _, _ => []
  | n+1, x, y, D =>
    (x, y) ::
      (if 0 < D then bresLoop yi dx dy n (x + 1) (y + yi) (D + 2 * (dy - dx))
       else bresLoop yi dx dy n (x + 1) y (D + 2 * dy))

/-- Modelled from the spec: Bresenham for `|y1 - y0| ≤ x1 - x0`, `x0 ≤ x1`. -/
def plotLineLow (x0 y0 x1 y1 : ℤ) : List (ℤ × ℤ) :=
  bresLoop (if y1 - y0 < 0 then -1 else 1) (x1 - x0) |y1 - y0|
    ((x1 - x0).toNat + 1) x0 y0 (2 * |y1 - y0| - (x1 - x0))

/-- Modelled from the spec: the steep octant, with the roles of x and y
exchanged. -/
def plotLineHigh (x0 y0 x1 y1 : ℤ) : List (ℤ × ℤ) :=
  (plotLineLow y0 x0 y1 x1).map (fun q => (q.2, q.1))

/-- Modelled from the spec: the Bresenham line between two integer points, as
a list of pixels `(px, py)`. -/
def bresenhamPixels (x0 y0 x1 y1 : ℤ) : List (ℤ × ℤ) :=
  if |y1 - y0| ≤ |x1 - x0| then
    if x1 < x0 then plotLineLow x1 y1 x0 y0 else plotLineLow x0 y0 x1 y1
  else
    if y1 < y0 then plotLineHigh x1 y1 x0 y0 else plotLineHigh x0 y0 x1 y1

/-- Clip a pixel `(px, py)` to the plot extents and turn it into the written
canvas cell `(row, col) = (py, px)` — the in-extent test of the claim. -/
def clipCell (ext : PlotExtents) (p : ℤ × ℤ) : List (ℤ × ℤ) :=
  if ext.xmin ≤ p.1 ∧ p.1 < ext.xmax ∧ ext.ymin - ext.ymin ≤ p.2 ∧ p.2 < ext.ymax - ext.ymin
  then [(p.2, p.1)] else []

theorem plotPt_false (ext : PlotExtents) (x y : ℤ) :
    plotPt false ext x y = clipCell ext (x, y) := rfl

theorem plotPt_true (ext : PlotExtents) (x y : ℤ) :
    plotPt true ext x y = clipCell ext (y, x) := rfl

end Texttui

namespace Texttui

theorem lineLoop_zero_eq_bresLoop (steep : Bool) (ext : PlotExtents)
    (ystep yi dx : ℤ) :
    ∀ (n : ℕ) (x y D : ℤ), D ≤ 0 →
      lineLoop steep ext ystep 0 n x y 0 =
        (bresLoop yi dx 0 n x y D).flatMap (fun q => plotPt steep ext q.1 q.2) := by
  intro n
  induction n with
  | zero => intro x y D hD; rfl
  | succ m ih =>
    intro x y D hD
    simp only [lineLoop, bresLoop, List.flatMap_cons]
    congr 1
    have hf : fl (qAdd 0 0) = 0 := by rw [qAdd_eq_add, add_zero]; exact fl_zero
    rw [hf, if_neg (by decide : ¬(Rat.divInt 1 2 < (0 : ℚ))),
      if_neg (by omega : ¬(0 < D))]
    rw [show D + 2 * 0 = D from by ring]
    exact ih (x + 1) y D hD

theorem lineWrites_vertical_eq (xs yl yr : ℤ) (ext : PlotExtents)
    (hne : yl ≠ yr) :
    lineWrites xs yl xs yr ext =
      (bresenhamPixels xs yl xs yr).flatMap (clipCell ext) := by
  have habs : 0 < |yl - yr| := abs_pos.mpr (sub_ne_zero.mpr hne)
  have hcomm : |yr - yl| = |yl - yr| := abs_sub_comm _ _
  have hplotHigh : ∀ l : List (ℤ × ℤ),
      l.flatMap (fun q => plotPt true ext q.1 q.2) =
        (l.map (fun q => (q.2, q.1))).flatMap (clipCell ext) := by
    intro l
    rw [List.flatMap_map]
    exact List.flatMap_congr (fun q _ => by rw [plotPt_true])
  rw [lineWrites, if_pos (by rw [sub_self, abs_zero]; omega),
    bresenhamPixels, if_neg (by rw [sub_self, abs_zero]; omega)]
  rw [lineSorted]
  by_cases hord : yr < yl
  · rw [if_pos hord, if_pos hord, plotLineHigh, ← hplotHigh]
    rw [lineCore, if_neg (by omega : ¬(yl - yr = 0)), plotLineLow]
    simp only [sub_self, Rat.zero_divInt, fl_zero, abs_zero]
    exact lineLoop_zero_eq_bresLoop true ext _ _ _ _ yr xs _ (by omega)
  · rw [if_neg hord, if_neg hord, plotLineHigh, ← hplotHigh]
    rw [lineCore, if_neg (by omega : ¬(yr - yl = 0)), plotLineLow]
    simp only [sub_self, Rat.zero_divInt, fl_zero, abs_zero]
    exact lineLoop_zero_eq_bresLoop true ext _ _ _ _ yl xs _ (by omega)

end Texttui

namespace Texttui

theorem bresLoop_dy_zero (yi dx : ℤ) :
    ∀ (n : ℕ) (x y D : ℤ), D ≤ 0 →
      bresLoop yi dx 0 n x y D =
        (List.range n).map (fun (k : ℕ) => (x + (k : ℤ), y)) := by
  intro n
  induction n with
  | zero => intro x y D hD; rfl
  | succ m ih =>
    intro x y D hD
    rw [bresLoop, if_neg (by omega : ¬(0 < D)), show D + 2 * 0 = D from by ring,
      ih (x + 1) y D hD, List.range_succ_eq_map, List.map_cons, List.map_map]
    congr 1
    · simp
    · refine List.map_congr_left ?_
      intro k _
      simp only [Function.comp]
      congr 1
      push_cast
      ring

theorem bresenham_vertical_mem (x0 ya yb t : ℤ) (hne : ya ≠ yb)
    (h1 : min ya yb ≤ t) (h2 : t ≤ max ya yb) :
    (x0, t) ∈ bresenhamPixels x0 ya x0 yb := by
  have habs : 0 < |yb - ya| := abs_pos.mpr (sub_ne_zero.mpr (fun h => hne h.symm))
  rw [bresenhamPixels, if_neg (by rw [sub_self, abs_zero]; omega)]
  by_cases hord : yb < ya
  · rw [if_pos hord, plotLineHigh, plotLineLow]
    simp only [sub_self, abs_zero, mul_zero, zero_sub]
    rw [bresLoop_dy_zero _ _ _ _ _ _ (by omega), List.map_map]
    refine List.mem_map.mpr ⟨(t - yb).toNat, List.mem_range.mpr (by omega), ?_⟩
    simp only [Function.comp, Prod.mk.injEq]
    constructor
    · trivial
    · omega
  · rw [if_neg hord, plotLineHigh, plotLineLow]
    simp only [sub_self, abs_zero, mul_zero, zero_sub]
    rw [bresLoop_dy_zero _ _ _ _ _ _ (by omega), List.map_map]
    refine List.mem_map.mpr ⟨(t - ya).toNat, List.mem_range.mpr (by omega), ?_⟩
    simp only [Function.comp, Prod.mk.injEq]
    constructor
    · trivial
    · omega

/-! ### Claim C1 -/

set_option maxRecDepth 4000 in
/-- C1 counterexample: the claim's general equality fails on the code.  At
`x_min = 0, x_max = 1, y_min = 0, y_max = 1`, `plot_width = 12`,
`plot_height = 8` and the call `draw_line(0, 0, 1/2, 5/8)`, the scaled
endpoints are `(0, 0)` and `(6, 5)` and all pixels are in extent; the float
error accumulation reaches `err = 3·fl(5/6) - 2 = 1/2 + 2⁻⁵³ > 1/2` after the
`x = 2` iteration (exact arithmetic gives exactly `1/2`, which is not
`> 0.5`), so the code steps `y` early and sets cell `(3, 3)` where the
Bresenham line has pixel `(3, 2)` — the written cells are not the in-extent
Bresenham pixels. -/
theorem draw_line_bresenham_tie_counterexample :
    (pytrunc (fl (qMul (Rat.divInt 1 2) (TuiPlot.xscaleF ⟨0, 1, 0, 1, 12, 8, false⟩))) = 6 ∧
      pytrunc (fl (qMul (Rat.divInt 5 8) (TuiPlot.yscaleF ⟨0, 1, 0, 1, 12, 8, false⟩))) -
        (TuiPlot.extentsF ⟨0, 1, 0, 1, 12, 8, false⟩).ymin = 5 ∧
      TuiPlot.extentsF ⟨0, 1, 0, 1, 12, 8, false⟩ = ⟨0, 12, 0, 8⟩) ∧
    (3, 3) ∈ TuiPlot.draw_line ⟨0, 1, 0, 1, 12, 8, false⟩ 0 0 (Rat.divInt 1 2) (Rat.divInt 5 8) ∧
    (3, 3) ∉ (bresenhamPixels 0 0 6 5).flatMap
        (clipCell (TuiPlot.extentsF ⟨0, 1, 0, 1, 12, 8, false⟩)) ∧
    TuiPlot.draw_line ⟨0, 1, 0, 1, 12, 8, false⟩ 0 0 (Rat.divInt 1 2) (Rat.divInt 5 8) ≠
      (bresenhamPixels
          (pytrunc (fl (qMul 0 (TuiPlot.xscaleF ⟨0, 1, 0, 1, 12, 8, false⟩))))
          (pytrunc (fl (qMul 0 (TuiPlot.yscaleF ⟨0, 1, 0, 1, 12, 8, false⟩))) -
            (TuiPlot.extentsF ⟨0, 1, 0, 1, 12, 8, false⟩).ymin)
          (pytrunc (fl (qMul (Rat.divInt 1 2) (TuiPlot.xscaleF ⟨0, 1, 0, 1, 12, 8, false⟩))))
          (pytrunc (fl (qMul (Rat.divInt 5 8) (TuiPlot.yscaleF ⟨0, 1, 0, 1, 12, 8, false⟩))) -
            (TuiPlot.extentsF ⟨0, 1, 0, 1, 12, 8, false⟩).ymin)).flatMap
        (clipCell (TuiPlot.extentsF ⟨0, 1, 0, 1, 12, 8, false⟩)) := by
  decide

/-- C1 (amended): for every `draw_line(x1, y1, x2, y2)` call with
`x_max ≠ x_min` and `y_max ≠ y_min` whose scaled integer endpoints form a
vertical segment (equal scaled x, differing scaled y), the canvas cells set
to 1 are exactly the in-extent pixels of the Bresenham line between the
scaled endpoints — in particular every in-extent pixel from the lower to the
upper scaled y is set.  (The vertical case is exact under floats: the steep
swap makes `derror = abs(fl(0/dx)) = 0.0` and the accumulation stays `0.0`.
For non-vertical segments the cell set follows the float error accumulation,
which `draw_line_bresenham_tie_counterexample` shows can deviate from the
Bresenham line at accumulated rounding ties.) -/
theorem draw_line_vertical_matches_bresenham (p : TuiPlot) (x1 y1 x2 y2 : ℚ)
    (hx : p.x_max ≠ p.x_min) (hy : p.y_max ≠ p.y_min)
    (hvert : pytrunc (fl (qMul x1 p.xscaleF)) = pytrunc (fl (qMul x2 p.xscaleF)))
    (hdiff : pytrunc (fl (qMul y1 p.yscaleF)) - p.extentsF.ymin ≠
      pytrunc (fl (qMul y2 p.yscaleF)) - p.extentsF.ymin) :
    (p.draw_line x1 y1 x2 y2 =
      (bresenhamPixels (pytrunc (fl (qMul x1 p.xscaleF)))
          (pytrunc (fl (qMul y1 p.yscaleF)) - p.extentsF.ymin)
          (pytrunc (fl (qMul x2 p.xscaleF)))
          (pytrunc (fl (qMul y2 p.yscaleF)) - p.extentsF.ymin)).flatMap
        (clipCell p.extentsF)) ∧
    (∀ t : ℤ,
      min (pytrunc (fl (qMul y1 p.yscaleF)) - p.extentsF.ymin)
          (pytrunc (fl (qMul y2 p.yscaleF)) - p.extentsF.ymin) ≤ t →
      t ≤ max (pytrunc (fl (qMul y1 p.yscaleF)) - p.extentsF.ymin)
          (pytrunc (fl (qMul y2 p.yscaleF)) - p.extentsF.ymin) →
      p.extentsF.xmin ≤ pytrunc (fl (qMul x1 p.xscaleF)) →
      pytrunc (fl (qMul x1 p.xscaleF)) < p.extentsF.xmax →
      p.extentsF.ymin - p.extentsF.ymin ≤ t →
      t < p.extentsF.ymax - p.extentsF.ymin →
      (t, pytrunc (fl (qMul x1 p.xscaleF))) ∈ p.draw_line x1 y1 x2 y2) := by
  constructor
  · rw [TuiPlot.draw_line, ← hvert]
    exact lineWrites_vertical_eq _ _ _ _ hdiff
  · intro t h1 h2 g1 g2 g3 g4
    rw [TuiPlot.draw_line, ← hvert, lineWrites_vertical_eq _ _ _ _ hdiff]
    refine List.mem_flatMap.mpr ⟨(pytrunc (fl (qMul x1 p.xscaleF)), t), ?_, ?_⟩
    · exact bresenham_vertical_mem _ _ _ t hdiff h1 h2
    · rw [clipCell, if_pos ⟨g1, g2, g3, g4⟩]
      exact List.mem_singleton.mpr rfl

set_option maxRecDepth 4000 in
/-- Witness for the amended C1 at a concrete vertical segment. -/
theorem draw_line_vertical_matches_bresenham_witness :
    TuiPlot.draw_line ⟨0, 1, 0, 1, 12, 8, false⟩ (Rat.divInt 1 4) 0 (Rat.divInt 1 4)
        (Rat.divInt 1 2) =
      (bresenhamPixels
          (pytrunc (fl (qMul (Rat.divInt 1 4) (TuiPlot.xscaleF ⟨0, 1, 0, 1, 12, 8, false⟩))))
          (pytrunc (fl (qMul 0 (TuiPlot.yscaleF ⟨0, 1, 0, 1, 12, 8, false⟩))) -
            (TuiPlot.extentsF ⟨0, 1, 0, 1, 12, 8, false⟩).ymin)
          (pytrunc (fl (qMul (Rat.divInt 1 4) (TuiPlot.xscaleF ⟨0, 1, 0, 1, 12, 8, false⟩))))
          (pytrunc (fl (qMul (Rat.divInt 1 2) (TuiPlot.yscaleF ⟨0, 1, 0, 1, 12, 8, false⟩))) -
            (TuiPlot.extentsF ⟨0, 1, 0, 1, 12, 8, false⟩).ymin)).flatMap
        (clipCell (TuiPlot.extentsF ⟨0, 1, 0, 1, 12, 8, false⟩)) :=
  (draw_line_vertical_matches_bresenham ⟨0, 1, 0, 1, 12, 8, false⟩ (Rat.divInt 1 4) 0
    (Rat.divInt 1 4) (Rat.divInt 1 2)
    (by norm_num) (by norm_num) (by decide) (by decide)).1

end Texttui

namespace Texttui

/-! ## `TuiPlot.draw_circle` (claim C2) and `TuiPlot.draw_rect` (claim C3) -/

/-- Python `range(x1, x2+1)` after the `if x1 > x2: swap` normalization used
in `_draw_circle_dots` / filled `draw_rect`: the integers from `min` to `max`
inclusive. -/
def hspan (a b : ℤ) : List ℤ :=
  if a > b then (List.range ((a - b).toNat + 1)).map (fun (k : ℕ) => b + (k : ℤ))
  else (List.range ((b - a).toNat + 1)).map (fun (k : ℕ) => a + (k : ℤ))

/-- `TuiPlot._draw_circle_dots(xc, yc, x, y, ext, filled)`: writes performed. -/
def drawCircleDots (xc yc x y : ℤ) (ext : PlotExtents) (filled conceal : Bool) :
    List PixelWrite :=
  match filled with
  | true =>
    (hspan (xc - x) (xc + x)).flatMap (fun i =>
        putpixelWrites i (yc + y) ext conceal ++ putpixelWrites i (yc - y) ext conceal) ++
      (hspan (xc - y) (xc + y)).flatMap (fun i =>
        putpixelWrites i (yc + x) ext conceal ++ putpixelWrites i (yc - x) ext conceal)
  | false =>
    putpixelWrites (xc + x) (yc + y) ext conceal ++
      putpixelWrites (xc - x) (yc + y) ext conceal ++
      putpixelWrites (xc + x) (yc - y) ext conceal ++
      putpixelWrites (xc - x) (yc - y) ext conceal ++
      putpixelWrites (xc + y) (yc + x) ext conceal ++
      putpixelWrites (xc - y) (yc + x) ext conceal ++
      putpixelWrites (xc + y) (yc - x) ext conceal ++
      putpixelWrites (xc - y) (yc - x) ext conceal

/-- The `while y >= x` loop of `draw_circle`: `x += 1`, then `y`/`d` update
(`d > 0` decrements `y` and adds `4*(x-y)+10`, else adds `4*x+6`, both with
the updated `x` and `y`), then `_draw_circle_dots`. -/
def circleLoop (xc yc : ℤ) (ext : PlotExtents) (filled conceal : Bool)
    (x y d : ℤ) : List PixelWrite :=
  if h : x ≤ y then
    if 0 < d then
      drawCircleDots xc yc (x + 1) (y - 1) ext filled conceal ++
        circleLoop xc yc ext filled conceal (x + 1) (y - 1)
          (d + 4 * ((x + 1) - (y - 1)) + 10)
    else
      drawCircleDots xc yc (x + 1) y ext filled conceal ++
        circleLoop xc yc ext filled conceal (x + 1) y (d + 4 * (x + 1) + 6)
  else []
termination_by (y + 1 - x).toNat
decreasing_by
  · omega
  · omega

/-- `TuiPlot.draw_circle(x, y, radius, filled)`: all writes performed.
Meaningful under `x_max ≠ x_min` and `y_max ≠ y_min`. -/
def TuiPlot.draw_circle (p : TuiPlot) (x y : ℚ) (radius : ℤ) (filled : Bool) :
    List PixelWrite :=
  drawCircleDots (pytrunc (x * p.xscale)) (pytrunc (y * p.yscale) - p.extents.ymin)
      0 radius p.extents filled p.conceal ++
    circleLoop (pytrunc (x * p.xscale)) (pytrunc (y * p.yscale) - p.extents.ymin)
      p.extents filled p.conceal 0 radius (3 - 2 * radius)

/-- The canvas cells `(row, col)` touched by a list of writes. -/
def canvasCells : List PixelWrite → List (ℤ × ℤ)
  | [] => []
  | PixelWrite.canvas r c _ :: rest => (r, c) :: canvasCells rest
  | PixelWrite.palette _ _ :: rest => canvasCells rest

/-- Modelled from the spec: the `(x, y)` iteration sequence of the midpoint
circle algorithm as the claim states it — `d = 3 - 2*radius` initially,
`d += 4*(x-y)+10` with `y` decremented when `d > 0`, else `d += 4*x+6`,
iterated while `y ≥ x`. -/
def midpointIters (x y d : ℤ) : List (ℤ × ℤ) :=
  if h : x ≤ y then
    if 0 < d then
      (x + 1, y - 1) :: midpointIters (x + 1) (y - 1) (d + 4 * ((x + 1) - (y - 1)) + 10)
    else
      (x + 1, y) :: midpointIters (x + 1) y (d + 4 * (x + 1) + 6)
  else []
termination_by (y + 1 - x).toNat
decreasing_by
  · omega
  · omega

/-- Modelled from the spec: the full offset sequence, starting at `(0, r)`. -/
def midpointPoints (r : ℤ) : List (ℤ × ℤ) := (0, r) :: midpointIters 0 r (3 - 2 * r)

/-- Modelled from the spec: the 8-way symmetric point set around the centre. -/
def octantPoints (cx cy : ℤ) (q : ℤ × ℤ) : List (ℤ × ℤ) :=
  [(cx + q.1, cy + q.2), (cx - q.1, cy + q.2), (cx + q.1, cy - q.2), (cx - q.1, cy - q.2),
   (cx + q.2, cy + q.1), (cx - q.2, cy + q.1), (cx + q.2, cy - q.1), (cx - q.2, cy - q.1)]

theorem canvasCells_append (l1 l2 : List PixelWrite) :
    canvasCells (l1 ++ l2) = canvasCells l1 ++ canvasCells l2 := by
  induction l1 with
  | nil => rfl
  | cons w rest ih =>
    cases w with
    | canvas r c v => simp [canvasCells, ih]
    | palette r c => simp [canvasCells, ih]

theorem canvasCells_putpixel (px py : ℤ) (ext : PlotExtents) (conceal : Bool) :
    canvasCells (putpixelWrites px py ext conceal) = clipCell ext (px, py) := by
  simp only [putpixelWrites, clipCell]
  by_cases hg : ext.xmin ≤ px ∧ px < ext.xmax ∧ ext.ymin - ext.ymin ≤ py ∧
      py < ext.ymax - ext.ymin
  · rw [if_pos (show putpixelGuard px py ext from hg), if_pos hg]
    cases conceal <;> rfl
  · rw [if_neg (show ¬putpixelGuard px py ext from hg), if_neg hg]
    rfl

theorem canvasCells_dots (xc yc a b : ℤ) (ext : PlotExtents) (conceal : Bool) :
    canvasCells (drawCircleDots xc yc a b ext false conceal) =
      (octantPoints xc yc (a, b)).flatMap (clipCell ext) := by
  simp only [drawCircleDots, octantPoints, canvasCells_append, canvasCells_putpixel,
    List.flatMap_cons, List.flatMap_nil, List.append_nil, List.append_assoc]

theorem circleLoop_cells (xc yc : ℤ) (ext : PlotExtents) (conceal : Bool) :
    ∀ x y d : ℤ,
      canvasCells (circleLoop xc yc ext false conceal x y d) =
        (midpointIters x y d).flatMap
          (fun q => (octantPoints xc yc q).flatMap (clipCell ext)) := by
  intro x y d
  generalize hm : (y + 1 - x).toNat = n
  induction n using Nat.strong_induction_on generalizing x y d with
  | _ n ih =>
    by_cases hxy : x ≤ y
    · rw [circleLoop, midpointIters, dif_pos hxy, dif_pos hxy]
      by_cases hd : 0 < d
      · rw [if_pos hd, if_pos hd, List.flatMap_cons, canvasCells_append, canvasCells_dots]
        congr 1
        exact ih ((y - 1) + 1 - (x + 1)).toNat (by omega) (x + 1) (y - 1) _ rfl
      · rw [if_neg hd, if_neg hd, List.flatMap_cons, canvasCells_append, canvasCells_dots]
        congr 1
        exact ih (y + 1 - (x + 1)).toNat (by omega) (x + 1) y _ rfl
    · rw [circleLoop, midpointIters, dif_neg hxy, dif_neg hxy]
      rfl

/-! ### Claim C2 -/

/-- C2: for every `draw_circle(x, y, radius, filled=False)` call with
`x_max ≠ x_min` and `y_max ≠ y_min`, the canvas cells written are exactly the
midpoint-circle rasterization centred at
`(int(x*xscale), int(y*yscale) - y_min)`: the 8-way symmetric point set of the
`(x, y)` sequence generated from `d = 3 - 2*radius` (updated by `4*(x-y)+10`
with `y` decremented when `d > 0`, else by `4*x+6`, while `y ≥ x`), clipped to
the plot extents — as cells `(row, col) = (py, px)`. -/
theorem draw_circle_matches_midpoint (p : TuiPlot) (x y : ℚ) (radius : ℤ)
    (hx : p.x_max ≠ p.x_min) (hy : p.y_max ≠ p.y_min) :
    canvasCells (p.draw_circle x y radius false) =
      (midpointPoints radius).flatMap
        (fun q => (octantPoints (pytrunc (x * p.xscale))
            (pytrunc (y * p.yscale) - p.extents.ymin) q).flatMap
          (clipCell p.extents)) := by
  rw [TuiPlot.draw_circle, canvasCells_append, midpointPoints, List.flatMap_cons,
    canvasCells_dots, circleLoop_cells]

/-- Witness for C2 at a concrete plot state and circle. -/
theorem draw_circle_matches_midpoint_witness :
    canvasCells (TuiPlot.draw_circle ⟨0, 1, 0, 1, 10, 8, false⟩ (1/2) (1/2) 3 false) =
      (midpointPoints 3).flatMap
        (fun q => (octantPoints
            (pytrunc (1/2 * TuiPlot.xscale ⟨0, 1, 0, 1, 10, 8, false⟩))
            (pytrunc (1/2 * TuiPlot.yscale ⟨0, 1, 0, 1, 10, 8, false⟩) -
              (TuiPlot.extents ⟨0, 1, 0, 1, 10, 8, false⟩).ymin) q).flatMap
          (clipCell (TuiPlot.extents ⟨0, 1, 0, 1, 10, 8, false⟩))) :=
  draw_circle_matches_midpoint ⟨0, 1, 0, 1, 10, 8, false⟩ (1/2) (1/2) 3
    (by norm_num) (by norm_num)

/-! ### Claim C3 -/

/-- `TuiPlot.draw_rect(x1, y1, w, h, filled)`.  Returns the writes performed
and whether the call raised.  The non-filled branch executes three
`draw_line` calls (top, bottom and left edges) and then evaluates the local
variable `x2` in `self.draw_line(x2, y1, x1+w, y1+h)`; `x2` is assigned only
in the filled branch, so Python raises `UnboundLocalError` — the fourth edge
is never drawn and the flag is `true`.  (`draw_line` canvas writes are
recorded with value 1; its palette writes are at the cells' `row/4, col/2`
positions under the same guard and are omitted here as in `lineWrites`.) -/
def stepRange (start : ℤ) (count : ℤ) (step : ℤ) : List ℤ :=
  (List.range count.toNat).map (fun (k : ℕ) => start + step * (k : ℤ))

def TuiPlot.draw_rect (p : TuiPlot) (x1 y1 w h : ℚ) (filled : Bool) :
    List PixelWrite × Bool :=
  match filled with
  | true =>
    let xs := pytrunc (x1 * p.xscale)
    let dw := pytrunc (w * p.xscale)
    let ys := pytrunc (y1 * p.yscale) - p.extents.ymin
    let dh := pytrunc (h * p.yscale)
    let yd : ℤ := if dh < 0 then -1 else 1
    ((hspan xs (xs + dw)).flatMap (fun px =>
        (stepRange ys (dh * yd + 1) yd).flatMap
          (fun py => putpixelWrites px py p.extents p.conceal)),
      false)
  | false =>
    ((p.draw_line x1 y1 (x1 + w) y1 ++
        p.draw_line x1 (y1 + h) (x1 + w) (y1 + h) ++
        p.draw_line x1 y1 x1 (y1 + h)).map (fun rc => PixelWrite.canvas rc.1 rc.2 1),
      true)

/-- C3: the claim fails on the code — every `draw_rect(..., filled=False)`
call terminates abnormally (`UnboundLocalError` on `x2`; the claim says it
completes without error and draws all four outline edges).  Only the top,
bottom and left edges are drawn before the error. -/
theorem draw_rect_outline_raises (p : TuiPlot) (x1 y1 w h : ℚ) :
    (p.draw_rect x1 y1 w h false).2 = true ∧
    (p.draw_rect x1 y1 w h false).1 =
      (p.draw_line x1 y1 (x1 + w) y1 ++
        p.draw_line x1 (y1 + h) (x1 + w) (y1 + h) ++
        p.draw_line x1 y1 x1 (y1 + h)).map (fun rc => PixelWrite.canvas rc.1 rc.2 1) :=
  ⟨rfl, rfl⟩

end Texttui
